import Mathlib

/-!
Verification of the `rln` package of go-zerokit-rln (rln.go, serialize.go)
against its natural-language specification.

Shallow embedding conventions:
* a Go `byte` is a `Nat` (values below 256 where it matters, stated as a
  hypothesis); a Go byte slice is a `List Nat`;
* Go fixed-size arrays (`[32]byte`, `[128]byte`) are byte lists; `copy` into a
  zero-initialised array of size `k` is `pad k`;
* Go machine integers are `Nat` with explicit `% 2^64` / signed reinterpretation
  (`toInt64`) where the source can overflow;
* fallible Go functions return `Except String`; functions whose Go counterpart
  can additionally panic at runtime (out-of-range slice expression, impossible
  allocation) return `GoResult`, whose `crash` constructor stands for a Go
  panic as opposed to a returned `error`;
* the external zerokit oracle (`link.RLNWrapper`) is passed in as an explicit
  function argument: its *result* is what the Go code consumes.
-/

set_option maxRecDepth 100000

/-- `binary.LittleEndian.Put...`: the `k` little-endian bytes of `n`
(truncating at `256^k`, as the Go fixed-width store does). -/
def leBytes : Nat → Nat → List Nat
  | 0, _ => []
  | k + 1, n => n % 256 :: leBytes k (n / 256)

/-- Value of a byte list read as a little-endian integer. -/
def leNum : List Nat → Nat
  | [] => 0
  | b :: t => b + 256 * leNum t

/-- `big.Int.SetBytes`: big-endian interpretation of a byte list. -/
def setBytesBE (b : List Nat) : Nat :=
  b.foldl (fun a x => a * 256 + x) 0

/-- Modelled from the spec: helper `revert` of the repository (its types file is
not under src/); §4.3 states all counts are little-endian while `SetBytes` is
big-endian, so `revert` reverses the byte slice before interpretation. -/
def revert (b : List Nat) : List Nat := b.reverse

/-- Go `copy` into a zero-initialised `[k]byte` array: keep the first `k` source
bytes, pad with zeros up to length `k`. -/
def pad (k : Nat) (b : List Nat) : List Nat :=
  b.take k ++ List.replicate (k - b.length) 0

/-- rln.go `appendLength`: `[len<8 LE>|input]`. -/
def appendLength (input : List Nat) : List Nat :=
  leBytes 8 input.length ++ input

/-- rln.go `appendLength32`: the prepended count is the number of 32-byte
elements, i.e. `len(input)/32`. -/
def appendLength32 (input : List Nat) : List Nat :=
  leBytes 8 (input.length / 32) ++ input

/-- rln.go `serializeSlice`: concatenation of the byte slices. -/
def serializeSlice (inputs : List (List Nat)) : List Nat :=
  inputs.flatten

/-- rln.go `serialize32`: plain concatenation of 32-byte roots, no count
prefix. -/
def serialize32 (roots : List (List Nat)) : List Nat :=
  roots.flatten

/-- Modelled from the spec: `Flatten` of the repository's types file (not under
src/) — §4.3's "siblings: elemCount*32" region is the concatenation of the
32-byte path elements. -/
def Flatten (nodes : List (List Nat)) : List Nat :=
  nodes.flatten

theorem length_leBytes (k n : Nat) : (leBytes k n).length = k := by
  induction k generalizing n with
  | zero => rfl
  | succ k ih => simp [leBytes, ih]

theorem leNum_leBytes (k n : Nat) : leNum (leBytes k n) = n % 256 ^ k := by
  induction k generalizing n with
  | zero => simp [leBytes, leNum, Nat.mod_one]
  | succ k ih =>
    have h : (256 : Nat) ^ (k + 1) = 256 * 256 ^ k := by ring
    simp [leBytes, leNum, ih, h, Nat.mod_mul]

theorem setBytesBE_append (a b : List Nat) :
    setBytesBE (a ++ b) = b.foldl (fun a x => a * 256 + x) (setBytesBE a) := by
  simp [setBytesBE, List.foldl_append]

theorem setBytesBE_revert (l : List Nat) : setBytesBE (revert l) = leNum l := by
  induction l with
  | nil => rfl
  | cons b t ih =>
    have h : revert (b :: t) = revert t ++ [b] := by simp [revert]
    rw [h, setBytesBE_append, ih]
    simp [leNum, List.foldl]
    ring

/-- rln.go `RLN_IDENTIFIER`: fixed 32-byte domain-separation constant. -/
def RLN_IDENTIFIER : List Nat :=
  [166, 140, 43, 8, 8, 22, 206, 113, 151, 128, 118, 40, 119, 197, 218, 174,
   11, 117, 84, 228, 96, 211, 212, 140, 145, 104, 146, 99, 24, 192, 217, 4]

/-- rln.go `DEFAULT_USER_MESSAGE_LIMIT`. -/
def DEFAULT_USER_MESSAGE_LIMIT : Nat := 10

/-- rln.go `IdentityCredential`: four 32-byte fields plus the uint32 user
message limit. -/
structure IdentityCredential where
  IDTrapdoor : List Nat
  IDNullifier : List Nat
  IDSecretHash : List Nat
  IDCommitment : List Nat
  UserMessageLimit : Nat
deriving DecidableEq, Repr

/-- rln.go `toIdentityCredential`: rejects key material whose length is not
`32*4`; otherwise copies the four consecutive 32-byte segments into the
zero-initialised fields. -/
def toIdentityCredential (generatedKeys : List Nat) (userMessageLimit : Nat) :
    Except String IdentityCredential :=
  if generatedKeys.length ≠ 32 * 4 then
    .error "generated keys are of invalid length"
  else
    .ok { IDTrapdoor := pad 32 (generatedKeys.take 32)
          IDNullifier := pad 32 ((generatedKeys.drop 32).take 32)
          IDSecretHash := pad 32 ((generatedKeys.drop 64).take 32)
          IDCommitment := pad 32 ((generatedKeys.drop 96).take 32)
          UserMessageLimit := userMessageLimit }

/-- rln.go `MembershipKeyGen`. The oracle's `ExtendedKeyGen` result is passed
in: `none` models the Go `nil` slice. `params` is the variadic optional user
message limit. -/
def membershipKeyGen (extendedKeyGenResult : Option (List Nat))
    (params : List Nat) : Except String IdentityCredential :=
  match params with
  | [userMessageLimit] =>
    match extendedKeyGenResult with
    | none => .error "error in key generation"
    | some generatedKeys => toIdentityCredential generatedKeys userMessageLimit
  | [] =>
    match extendedKeyGenResult with
    | none => .error "error in key generation"
    | some generatedKeys =>
      toIdentityCredential generatedKeys DEFAULT_USER_MESSAGE_LIMIT
  | _ => .error "just one user message limit is allowed"

/-- rln.go `SeededMembershipKeyGen`: identical to `MembershipKeyGen` except the
key material comes from `ExtendedSeededKeyGen(seed)`. -/
def seededMembershipKeyGen (extendedSeededKeyGen : List Nat → Option (List Nat))
    (seed : List Nat) (params : List Nat) : Except String IdentityCredential :=
  match params with
  | [userMessageLimit] =>
    match extendedSeededKeyGen seed with
    | none => .error "error in key generation"
    | some generatedKeys => toIdentityCredential generatedKeys userMessageLimit
  | [] =>
    match extendedSeededKeyGen seed with
    | none => .error "error in key generation"
    | some generatedKeys =>
      toIdentityCredential generatedKeys DEFAULT_USER_MESSAGE_LIMIT
  | _ => .error "just one user message limit is allowed"

/-- rln.go `(*RLN).Poseidon`: count-prefixes and concatenates the inputs, calls
the oracle's `PoseidonHash`, then copies the result into a zeroed 32-byte
`MerkleNode`. -/
def rPoseidon (poseidonHashOracle : List Nat → Except String (List Nat))
    (input : List (List Nat)) : Except String (List Nat) :=
  match poseidonHashOracle (leBytes 8 input.length ++ serializeSlice input) with
  | .error e => .error e
  | .ok b => .ok (pad 32 b)

/-- Modelled from the spec: `SerializeUint32` of the repository's types file
(not under src/); §4.3/§3 — a uint32 encoded little-endian in the low 4 bytes
of a zeroed 32-byte array. -/
def serializeUint32 (v : Nat) : List Nat :=
  leBytes 4 v ++ List.replicate 28 0

/-- serialize.go `serialize` (proof-generation witness):
`[identity_secret<32> | id_index<8 LE> | user_message_limit<32, low 4 LE> |
message_id<32, low 4 LE> | external_nullifier<32> | signal_len<8 LE> |
signal]`. -/
def serialize (idKey : List Nat) (memIndex : Nat) (userMessageLimit : Nat)
    (messageId : Nat) (externalNullifier : List Nat) (msg : List Nat) :
    List Nat :=
  idKey ++ leBytes 8 memIndex ++
  (leBytes 4 userMessageLimit ++ List.replicate 28 0) ++
  (leBytes 4 messageId ++ List.replicate 28 0) ++
  externalNullifier ++ appendLength msg

/-- rln.go / serialize.go `RateLimitProof`. -/
structure RateLimitProof where
  Proof : List Nat
  MerkleRoot : List Nat
  ExternalNullifier : List Nat
  ShareX : List Nat
  ShareY : List Nat
  Nullifier : List Nat
deriving DecidableEq, Repr

/-- serialize.go `RateLimitProof.serialize`:
`[proof<128> | root<32> | external_nullifier<32> | x<32> | y<32> |
nullifier<32>]`. -/
def RateLimitProof.serialize (r : RateLimitProof) : List Nat :=
  r.Proof ++ r.MerkleRoot ++ r.ExternalNullifier ++ r.ShareX ++ r.ShareY ++
  r.Nullifier

/-- serialize.go `RateLimitProof.serializeWithData`: the above followed by the
length-prefixed signal. -/
def RateLimitProof.serializeWithData (r : RateLimitProof) (data : List Nat) :
    List Nat :=
  r.serialize ++ appendLength data

/-- rln.go `(*RLN).Verify`: hands the re-serialized proof plus message and the
concatenated accepted roots to the oracle's `VerifyWithRoots`. -/
def verify (verifyWithRootsOracle : List Nat → List Nat → Except String Bool)
    (data : List Nat) (proof : RateLimitProof) (roots : List (List Nat)) :
    Except String Bool :=
  match verifyWithRootsOracle (proof.serializeWithData data)
      (serialize32 roots) with
  | .error e => .error e
  | .ok res => .ok res

/-- rln.go `(*RLN).GenerateProof`: derives the external nullifier via Poseidon,
serializes the witness, invokes the oracle prover, requires a 288-byte output
and decodes it as `[proof<128> | root<32> | external_nullifier<32> | x<32> |
y<32> | nullifier<32>]`. -/
def generateProof (poseidonHashOracle : List Nat → Except String (List Nat))
    (generateRLNProofOracle : List Nat → Except String (List Nat))
    (data : List Nat) (key : IdentityCredential) (index : Nat)
    (epoch : List Nat) (messageId : Nat) : Except String RateLimitProof :=
  match rPoseidon poseidonHashOracle [epoch, RLN_IDENTIFIER] with
  | .error e => .error ("could not construct the external nullifier: " ++ e)
  | .ok externalNullifierInput =>
    match generateRLNProofOracle
        (serialize key.IDSecretHash index key.UserMessageLimit messageId
          externalNullifierInput data) with
    | .error e => .error e
    | .ok proofBytes =>
      if proofBytes.length ≠ 288 then
        .error ("invalid proof generated. size: " ++
          toString proofBytes.length ++ " expected: 288")
      else
        .ok { Proof := pad 128 (proofBytes.take 128)
              MerkleRoot := pad 32 ((proofBytes.drop 128).take 32)
              ExternalNullifier := pad 32 ((proofBytes.drop 160).take 32)
              ShareX := pad 32 ((proofBytes.drop 192).take 32)
              ShareY := pad 32 ((proofBytes.drop 224).take 32)
              Nullifier := pad 32 ((proofBytes.drop 256).take 32) }

/-- The post-prover tail of `GenerateProof` (length check and field decode),
split out so theorems can state that the prover's result fully determines
`GenerateProof`'s result. -/
def decodeProofBytes (res : Except String (List Nat)) :
    Except String RateLimitProof :=
  match res with
  | .error e => .error e
  | .ok proofBytes =>
    if proofBytes.length ≠ 288 then
      .error ("invalid proof generated. size: " ++
        toString proofBytes.length ++ " expected: 288")
    else
      .ok { Proof := pad 128 (proofBytes.take 128)
            MerkleRoot := pad 32 ((proofBytes.drop 128).take 32)
            ExternalNullifier := pad 32 ((proofBytes.drop 160).take 32)
            ShareX := pad 32 ((proofBytes.drop 192).take 32)
            ShareY := pad 32 ((proofBytes.drop 224).take 32)
            Nullifier := pad 32 ((proofBytes.drop 256).take 32) }

/-- rln.go `(*RLN).InsertMember`: Poseidon-hashes the commitment together with
the serialized user message limit and hands the hashed leaf to the oracle's
`SetNextLeaf`. -/
def insertMember (poseidonHashOracle : List Nat → Except String (List Nat))
    (setNextLeaf : List Nat → Bool) (idComm : List Nat) (limit : Nat) :
    Except String Unit :=
  match rPoseidon poseidonHashOracle [idComm, serializeUint32 limit] with
  | .error e => .error e
  | .ok hashedLeaf =>
    if setNextLeaf hashedLeaf then .ok () else .error "could not insert member"

/-- rln.go `(*RLN).InsertMemberAt`: hands `index` and the commitment bytes to
the oracle's `SetLeaf`. -/
def insertMemberAt (setLeaf : Nat → List Nat → Bool) (index : Nat)
    (idComm : List Nat) : Except String Unit :=
  if setLeaf index idComm then .ok () else .error "could not insert member"

/-- rln.go / serialize.go `MerkleProof`. -/
structure MerkleProof where
  PathElements : List (List Nat)
  PathIndexes : List Nat
deriving DecidableEq, Repr

/-- serialize.go `MerkleProof.serialize`:
`[elemCount<8 LE>][siblings][idxCount<8 LE>][indexBits]`. -/
def MerkleProof.serialize (r : MerkleProof) : List Nat :=
  appendLength32 (Flatten r.PathElements) ++ appendLength r.PathIndexes

/-- Result of a Go function that can return a value, return an `error`, or
panic at runtime. `crash` stands for a Go panic (out-of-range slice expression
or impossible allocation), as opposed to a returned error. -/
inductive GoResult (α : Type) where
  | ok (val : α)
  | err (msg : String)
  | crash
deriving DecidableEq, Repr

/-- Two's-complement reinterpretation of a (wrapped) unsigned 64-bit value as
Go's `int` on a 64-bit platform. -/
def toInt64 (x : Nat) : Int :=
  if x % 2 ^ 64 < 2 ^ 63 then ((x % 2 ^ 64 : Nat) : Int)
  else ((x % 2 ^ 64 : Nat) : Int) - 2 ^ 64

/-- The element-copy loop of `MerkleProof.deserialize`: reads `count` 32-byte
chunks of `b` starting at `offset`. `none` models the Go panic raised when the
slice expression `b[offset:offset+32]` is out of range (the same crafted inputs
make the preceding `make([]MerkleNode, numElements)` allocation panic). -/
def readElems (b : List Nat) : Nat → Nat → Option (List (List Nat) × Nat)
  | offset, 0 => some ([], offset)
  | offset, count + 1 =>
    if offset + 32 ≤ b.length then
      (readElems b (offset + 32) count).map
        (fun p => ((b.drop offset).take 32 :: p.1, p.2))
    else none

/-- serialize.go `MerkleProof.deserialize`. The declared element count is read
little-endian (`SetBytes` on the reverted bytes); the expected total length
`8 + int(32*n) + 8 + int(n)` is computed in Go `int` arithmetic, i.e. with
64-bit wraparound (`toInt64`), and compared against the actual length. -/
def MerkleProof.deserialize (b : List Nat) : GoResult MerkleProof :=
  if b.length < 8 then
    .err ("wrong input size: " ++ toString b.length)
  else
    let numElements := setBytesBE (revert (b.take 8))
    if toInt64 (8 + 32 * numElements + 8 + numElements) ≠ (b.length : Int) then
      .err "wrong input size expected"
    else
      match readElems b 8 numElements with
      | none => .crash
      | some (elems, offset) =>
        if offset + 8 ≤ b.length then
          let numIndexes := setBytesBE (revert ((b.drop offset).take 8))
          if numIndexes ≠ numElements then
            .err "amount of values in path and indexes do not match"
          else if offset + 8 + numIndexes ≤ b.length then
            let idxs := (b.drop (offset + 8)).take numIndexes
            if offset + 8 + numIndexes ≠ b.length then
              .err "error parsing proof"
            else
              .ok ⟨elems, idxs⟩
          else .crash
        else .crash

/-!
The membership Merkle tree itself lives behind the oracle boundary
(`link.RLNWrapper`; zerokit): only its callers are under src/. It is modelled
from the spec below.
-/

/-- Modelled from the spec (§3, §4.2): hash values of the membership tree as
free terms, so that the root is a pure function of the ordered leaf array and
distinct leaf arrays give distinct roots (the spec's testable property
`Root(InsertAt(i,L)) ≠ Root(before)` when `L` differs from the prior leaf). -/
inductive MTerm where
  | lf (v : List Nat)
  | nd (l r : MTerm)
deriving DecidableEq, Repr

/-- Modelled from the spec (§3): the zero value of an empty slot. -/
def zeroLeaf : List Nat := List.replicate 32 0

/-- Modelled from the spec (§3, §4.2): the root of the depth-`d` subtree whose
leaves are `f offset, …, f (offset + 2^d - 1)`. -/
def rootOfDepth : Nat → (Nat → List Nat) → Nat → MTerm
  | 0, f, offset => .lf (f offset)
  | d + 1, f, offset =>
    .nd (rootOfDepth d f offset) (rootOfDepth d f (offset + 2 ^ d))

/-- Modelled from the spec (§4.2 `InsertAt`): overwrite slot `i` with leaf
`L`. -/
def insertAt (f : Nat → List Nat) (i : Nat) (L : List Nat) : Nat → List Nat :=
  fun j => if j = i then L else f j

/-- Modelled from the spec (§4.2 `DeleteAt`): reset slot `i` to the zero
leaf. -/
def deleteAt (f : Nat → List Nat) (i : Nat) : Nat → List Nat :=
  insertAt f i zeroLeaf

theorem rootOfDepth_congr (d : Nat) (f g : Nat → List Nat) (offset : Nat)
    (h : ∀ j, j < 2 ^ d → f (offset + j) = g (offset + j)) :
    rootOfDepth d f offset = rootOfDepth d g offset := by
  induction d generalizing offset with
  | zero =>
    have h0 := h 0 (by norm_num)
    simp [rootOfDepth] at h0 ⊢
    simpa using h0
  | succ d ih =>
    have hL : rootOfDepth d f offset = rootOfDepth d g offset := by
      apply ih
      intro j hj
      exact h j (lt_of_lt_of_le hj (by
        have : (2 : Nat) ^ d ≤ 2 ^ (d + 1) := Nat.pow_le_pow_right (by norm_num) (by omega)
        omega))
    have hR : rootOfDepth d f (offset + 2 ^ d) = rootOfDepth d g (offset + 2 ^ d) := by
      apply ih
      intro j hj
      have hlt : 2 ^ d + j < 2 ^ (d + 1) := by
        have : (2 : Nat) ^ (d + 1) = 2 ^ d + 2 ^ d := by ring
        omega
      have := h (2 ^ d + j) hlt
      simpa [Nat.add_assoc] using this
    simp [rootOfDepth, hL, hR]

theorem rootOfDepth_inj (d : Nat) (f g : Nat → List Nat) (offset : Nat)
    (h : rootOfDepth d f offset = rootOfDepth d g offset) :
    ∀ j, j < 2 ^ d → f (offset + j) = g (offset + j) := by
  induction d generalizing offset with
  | zero =>
    intro j hj
    have hj0 : j = 0 := by omega
    subst hj0
    simp [rootOfDepth] at h
    simpa using h
  | succ d ih =>
    intro j hj
    simp only [rootOfDepth, MTerm.nd.injEq] at h
    by_cases hcase : j < 2 ^ d
    · exact ih offset h.1 j hcase
    · have h2 : (2 : Nat) ^ (d + 1) = 2 ^ d + 2 ^ d := by ring
      have hj' : j - 2 ^ d < 2 ^ d := by omega
      have := ih (offset + 2 ^ d) h.2 (j - 2 ^ d) hj'
      have harith : offset + 2 ^ d + (j - 2 ^ d) = offset + j := by omega
      rwa [harith] at this

theorem take_append_of_length (a b : List Nat) (k : Nat) (h : a.length = k) :
    (a ++ b).take k = a := by
  subst h
  exact List.take_left a b

theorem drop_append_of_length (a b : List Nat) (k : Nat) (h : a.length = k) :
    (a ++ b).drop k = b := by
  subst h
  exact List.drop_left a b

theorem Flatten_length (elems : List (List Nat))
    (h : ∀ e ∈ elems, e.length = 32) :
    (Flatten elems).length = 32 * elems.length := by
  induction elems with
  | nil => simp [Flatten]
  | cons e es ih =>
    have he : e.length = 32 := h e (by simp)
    have ihh := ih (fun x hx => h x (by simp [hx]))
    simp only [Flatten] at ihh ⊢
    simp [List.flatten_cons, List.length_append, he, ihh]
    ring

theorem readElems_spec (elems : List (List Nat)) (b : List Nat) :
    ∀ (offset : Nat) (rest : List Nat), (∀ e ∈ elems, e.length = 32) →
    b.drop offset = Flatten elems ++ rest →
    readElems b offset elems.length =
      some (elems, offset + 32 * elems.length) := by
  induction elems with
  | nil =>
    intro offset rest _ _
    simp [readElems]
  | cons e es ih =>
    intro offset rest h32 hdrop
    have he : e.length = 32 := h32 e (by simp)
    have hflat : Flatten (e :: es) ++ rest = e ++ (Flatten es ++ rest) := by
      simp [Flatten, List.flatten_cons, List.append_assoc]
    have hdl : (b.drop offset).length = b.length - offset := List.length_drop offset b
    have hge : offset + 32 ≤ b.length := by
      have h1 : (b.drop offset).length = (Flatten (e :: es) ++ rest).length := by
        rw [hdrop]
      rw [hflat] at h1
      simp [List.length_append, he] at h1
      omega
    have hchunk : (b.drop offset).take 32 = e := by
      rw [hdrop, hflat]
      exact take_append_of_length e (Flatten es ++ rest) 32 he
    have hdrop' : b.drop (offset + 32) = Flatten es ++ rest := by
      have hdd : (b.drop offset).drop 32 = b.drop (offset + 32) :=
        List.drop_drop 32 offset b
      rw [← hdd, hdrop, hflat]
      exact drop_append_of_length e (Flatten es ++ rest) 32 he
    have ihh := ih (offset + 32) rest (fun x hx => h32 x (by simp [hx])) hdrop'
    show readElems b offset (es.length + 1) = _
    simp only [readElems, hge, if_pos, ihh, Option.map]
    simp [hchunk]
    ring

theorem leNum_leBytes8_of_lt (n : Nat) (h : n < 2 ^ 64) :
    leNum (leBytes 8 n) = n := by
  rw [leNum_leBytes]
  have h256 : (256 : Nat) ^ 8 = 2 ^ 64 := by norm_num
  rw [h256]
  exact Nat.mod_eq_of_lt h

theorem toInt64_of_lt (x : Nat) (h : x < 2 ^ 63) : toInt64 x = (x : Int) := by
  have hx64 : x < 2 ^ 64 := lt_trans h (by norm_num)
  have hmod : x % 2 ^ 64 = x := Nat.mod_eq_of_lt hx64
  unfold toInt64
  rw [hmod, if_pos h]

/-- C6: lossless roundtrip of the Merkle-path wire encoding, for every proof
whose element and index counts agree (and whose serialized form is
representable, i.e. shorter than Go's maximum slice length `2^63`). -/
theorem merkleProof_deserialize_serialize (elems : List (List Nat))
    (idxs : List Nat) (h32 : ∀ e ∈ elems, e.length = 32)
    (hlen : elems.length = idxs.length)
    (hrep : 8 + 32 * elems.length + 8 + elems.length < 2 ^ 63) :
    MerkleProof.deserialize (MerkleProof.serialize ⟨elems, idxs⟩) =
      GoResult.ok ⟨elems, idxs⟩ := by
  have hFlat : (Flatten elems).length = 32 * elems.length :=
    Flatten_length elems h32
  have hidx : idxs.length = elems.length := hlen.symm
  have hb : MerkleProof.serialize ⟨elems, idxs⟩ =
      leBytes 8 elems.length ++
        (Flatten elems ++ (leBytes 8 elems.length ++ idxs)) := by
    simp only [MerkleProof.serialize, appendLength32, appendLength, hFlat, hidx]
    rw [Nat.mul_div_cancel_left elems.length (by norm_num : (0:Nat) < 32)]
    simp [List.append_assoc]
  rw [hb]
  set n := elems.length with hn
  set b := leBytes 8 n ++ (Flatten elems ++ (leBytes 8 n ++ idxs)) with hbdef
  have hblen : b.length = 8 + 32 * n + 8 + n := by
    simp [hbdef, List.length_append, length_leBytes, hFlat, hidx]
    omega
  have hnlt : n < 2 ^ 64 := by omega
  have htake8 : b.take 8 = leBytes 8 n := by
    apply take_append_of_length
    exact length_leBytes 8 n
  have hnum : setBytesBE (revert (b.take 8)) = n := by
    rw [htake8, setBytesBE_revert, leNum_leBytes8_of_lt n hnlt]
  have hdrop8 : b.drop 8 = Flatten elems ++ (leBytes 8 n ++ idxs) := by
    apply drop_append_of_length
    exact length_leBytes 8 n
  have hre : readElems b 8 n = some (elems, 8 + 32 * n) := by
    have := readElems_spec elems b 8 (leBytes 8 n ++ idxs) h32 hdrop8
    simpa [hn] using this
  have hdropMid : b.drop (8 + 32 * n) = leBytes 8 n ++ idxs := by
    have hdd : (b.drop 8).drop (32 * n) = b.drop (8 + 32 * n) :=
      List.drop_drop (32 * n) 8 b
    rw [← hdd, hdrop8]
    exact drop_append_of_length _ _ _ hFlat
  have hnum2 : setBytesBE (revert ((b.drop (8 + 32 * n)).take 8)) = n := by
    rw [hdropMid, take_append_of_length _ _ _ (length_leBytes 8 n),
      setBytesBE_revert, leNum_leBytes8_of_lt n hnlt]
  have hdropIdx : b.drop (8 + 32 * n + 8) = idxs := by
    have hdd : (b.drop (8 + 32 * n)).drop 8 = b.drop (8 + 32 * n + 8) := by
      have := List.drop_drop 8 (8 + 32 * n) b
      rw [this]
    rw [← hdd, hdropMid]
    exact drop_append_of_length _ _ _ (length_leBytes 8 n)
  have htakeIdx : (b.drop (8 + 32 * n + 8)).take n = idxs := by
    rw [hdropIdx, ← hidx]
    exact List.take_length idxs
  have hint : toInt64 (8 + 32 * n + 8 + n) = ((b.length : Nat) : Int) := by
    rw [toInt64_of_lt _ hrep, hblen]
  simp only [MerkleProof.deserialize, hnum, hre, hnum2]
  rw [if_neg (by omega : ¬ b.length < 8)]
  rw [if_neg (by rw [hint]; simp : ¬ toInt64 (8 + 32 * n + 8 + n) ≠ (b.length : Int))]
  rw [if_pos (by omega : 8 + 32 * n + 8 ≤ b.length)]
  rw [if_neg (by omega : ¬ n ≠ n)]
  rw [if_pos (by omega : 8 + 32 * n + 8 + n ≤ b.length)]
  rw [if_neg (by omega : ¬ 8 + 32 * n + 8 + n ≠ b.length)]
  have harith : 8 + 32 * n + 8 = 8 + 32 * n + 8 := rfl
  rw [htakeIdx]

theorem pad_eq_of_length (l : List Nat) (k : Nat) (h : l.length = k) :
    pad k l = l := by
  subst h
  simp [pad, List.take_length]

instance {e a : Type} [DecidableEq e] [DecidableEq a] :
    DecidableEq (Except e a) := fun x y =>
  match x, y with
  | .error u, .error v =>
    if h : u = v then isTrue (by rw [h]) else isFalse (by simp [h])
  | .ok u, .ok v =>
    if h : u = v then isTrue (by rw [h]) else isFalse (by simp [h])
  | .error _, .ok _ => isFalse (by simp)
  | .ok _, .error _ => isFalse (by simp)

/-!
Claim theorems.
-/

/-- C1 counterexample: with `UserMessageLimit = 10` and `messageId = 10 ≥
UserMessageLimit`, `GenerateProof` does not fail with a limit-exceeded error:
the prover oracle is invoked, its 288-byte output is accepted, and a decoded
proof is returned. -/
theorem generateProof_over_limit_cex :
    generateProof (fun _ => .ok (List.replicate 32 5))
      (fun _ => .ok (List.replicate 288 7)) []
      ⟨List.replicate 32 2, List.replicate 32 2, List.replicate 32 2,
        List.replicate 32 2, 10⟩ 0 (List.replicate 32 0) 10 =
    .ok ⟨List.replicate 128 7, List.replicate 32 7, List.replicate 32 7,
      List.replicate 32 7, List.replicate 32 7, List.replicate 32 7⟩ := by
  decide

/-- C1 (amended): `GenerateProof` performs no messageId-vs-limit check. For
`messageId ≥ UserMessageLimit` it still invokes the oracle prover on the
serialized witness, and its result is exactly the decoded prover result
(limit rejection is delegated to the oracle). -/
theorem generateProof_delegates_limit
    (ph prover : List Nat → Except String (List Nat)) (data : List Nat)
    (key : IdentityCredential) (index : Nat) (epoch : List Nat)
    (messageId : Nat) (en : List Nat)
    (_hlim : key.UserMessageLimit ≤ messageId)
    (hph : rPoseidon ph [epoch, RLN_IDENTIFIER] = .ok en) :
    generateProof ph prover data key index epoch messageId =
      decodeProofBytes (prover (serialize key.IDSecretHash index
        key.UserMessageLimit messageId en data)) := by
  unfold generateProof decodeProofBytes
  rw [hph]

/-- C1 witness: a concrete over-limit call (limit 10, messageId 12) whose
result is exactly the prover oracle's (failing) result. -/
theorem generateProof_delegates_limit_witness :
    generateProof (fun _ => .ok (List.replicate 32 5))
      (fun _ => .error "prover invoked") []
      ⟨List.replicate 32 2, List.replicate 32 2, List.replicate 32 2,
        List.replicate 32 2, 10⟩ 0 (List.replicate 32 0) 12 =
      decodeProofBytes (.error "prover invoked") := by
  have h := generateProof_delegates_limit (fun _ => .ok (List.replicate 32 5))
    (fun _ => .error "prover invoked") []
    ⟨List.replicate 32 2, List.replicate 32 2, List.replicate 32 2,
      List.replicate 32 2, 10⟩ 0 (List.replicate 32 0) 12
    (List.replicate 32 5) (by decide) (by decide)
  exact h

/-- C2 counterexample: against a tree oracle that accepts exactly the Poseidon
hashed leaf, `InsertMemberAt` fails while `InsertMember` succeeds on the same
commitment: the leaf `InsertMemberAt` writes is not the hashed leaf. -/
theorem insertMemberAt_raw_cex :
    insertMemberAt (fun _ b => b == List.replicate 32 9) 3
        (List.replicate 32 1) = .error "could not insert member" ∧
    insertMember (fun _ => .ok (List.replicate 32 9))
        (fun b => b == List.replicate 32 9) (List.replicate 32 1) 10 =
      .ok () := by
  decide

/-- C2 (amended): `InsertMemberAt` hands `SetLeaf` the raw 32-byte commitment,
not the Poseidon-hashed leaf that `InsertMember` hands `SetNextLeaf`: against
a tree oracle accepting exactly the value `v`, `InsertMemberAt` succeeds iff
`v` is the raw commitment, while `InsertMember` succeeds iff `v` is the hashed
leaf. -/
theorem insertMemberAt_stores_raw (v idComm : List Nat) (index : Nat) :
    (insertMemberAt (fun _ b => b == v) index idComm = .ok () ↔ idComm = v) ∧
    ∀ (ph : List Nat → Except String (List Nat)) (limit : Nat) (h : List Nat),
      rPoseidon ph [idComm, serializeUint32 limit] = .ok h →
      (insertMember ph (fun b => b == v) idComm limit = .ok () ↔ h = v) := by
  constructor
  · by_cases hb : idComm = v
    · subst hb
      simp [insertMemberAt]
    · simp [insertMemberAt, hb]
  · intro ph limit h hph
    unfold insertMember
    rw [hph]
    by_cases hb : h = v
    · subst hb
      simp
    · simp [hb]

/-- C2 witness: with a Poseidon oracle hashing everything to the 32-byte value
`9…9`, `InsertMember` of commitment `1…1` succeeds against a tree accepting
exactly `9…9` (so the hashed leaf is what it writes). -/
theorem insertMemberAt_stores_raw_witness :
    insertMember (fun _ => .ok (List.replicate 32 9))
        (fun b => b == List.replicate 32 9) (List.replicate 32 1) 10 =
        .ok () ↔ List.replicate 32 9 = List.replicate 32 9 :=
  (insertMemberAt_stores_raw (List.replicate 32 9) (List.replicate 32 1)
    3).2 (fun _ => .ok (List.replicate 32 9)) 10 (List.replicate 32 9)
    (by decide)

/-- C3 counterexample: a 128-byte all-zero oracle output is returned as a
credential whose four fields are all-zero, with no error. -/
theorem membershipKeyGen_allzero_cex :
    membershipKeyGen (some (List.replicate 128 0)) [] =
      .ok ⟨List.replicate 32 0, List.replicate 32 0, List.replicate 32 0,
        List.replicate 32 0, 10⟩ := by
  decide

/-- C3 (amended): neither generator checks for all-zero fields: whenever the
oracle outputs exactly 128 bytes, both return the credential made of its four
32-byte segments regardless of the bytes' values — in particular an all-zero
output yields an all-zero credential, not a generation error. -/
theorem membershipKeyGen_no_zero_check (gk seed : List Nat)
    (hglen : gk.length = 128) :
    membershipKeyGen (some gk) [] =
      .ok ⟨pad 32 (gk.take 32), pad 32 ((gk.drop 32).take 32),
        pad 32 ((gk.drop 64).take 32), pad 32 ((gk.drop 96).take 32),
        DEFAULT_USER_MESSAGE_LIMIT⟩ ∧
    seededMembershipKeyGen (fun _ => some gk) seed [] =
      .ok ⟨pad 32 (gk.take 32), pad 32 ((gk.drop 32).take 32),
        pad 32 ((gk.drop 64).take 32), pad 32 ((gk.drop 96).take 32),
        DEFAULT_USER_MESSAGE_LIMIT⟩ := by
  constructor <;>
    simp [membershipKeyGen, seededMembershipKeyGen, toIdentityCredential, hglen]

/-- C3 witness: the amended statement at the all-zero 128-byte output. -/
theorem membershipKeyGen_no_zero_check_witness :
    membershipKeyGen (some (List.replicate 128 0)) [] =
      .ok ⟨pad 32 ((List.replicate 128 0).take 32),
        pad 32 (((List.replicate 128 0).drop 32).take 32),
        pad 32 (((List.replicate 128 0).drop 64).take 32),
        pad 32 (((List.replicate 128 0).drop 96).take 32),
        DEFAULT_USER_MESSAGE_LIMIT⟩ :=
  (membershipKeyGen_no_zero_check (List.replicate 128 0) [] (by decide)).1

/-- C4 counterexample: for a prior state whose slot 0 already holds a nonzero
leaf, insert-at-0 followed by delete-at-0 does not restore the prior root:
deletion resets the slot to the zero leaf, not to the prior value. -/
theorem insert_delete_root_cex :
    rootOfDepth 1
        (deleteAt
          (insertAt (fun j => if j = 0 then List.replicate 32 1 else zeroLeaf)
            0 (List.replicate 32 2)) 0) 0 ≠
      rootOfDepth 1 (fun j => if j = 0 then List.replicate 32 1 else zeroLeaf)
        0 := by
  decide

/-- C4 (amended, spec-modelled tree): for an in-range slot `i` that holds the
zero leaf (an empty slot, as in the repository's test), insert-at-`i` followed
by delete-at-`i` restores the prior root exactly; and for any prior state,
inserting a leaf that differs from the prior leaf changes the root. -/
theorem insert_delete_root (d : Nat) (f : Nat → List Nat) (i : Nat)
    (L : List Nat) (hi : i < 2 ^ d) :
    (f i = zeroLeaf →
      rootOfDepth d (deleteAt (insertAt f i L) i) 0 = rootOfDepth d f 0) ∧
    (L ≠ f i → rootOfDepth d (insertAt f i L) 0 ≠ rootOfDepth d f 0) := by
  constructor
  · intro hz
    apply rootOfDepth_congr
    intro j _
    by_cases hji : j = i
    · simp [deleteAt, insertAt, hji, hz]
    · simp [deleteAt, insertAt, hji]
  · intro hne heq
    have h := rootOfDepth_inj d _ f 0 heq i hi
    simp [insertAt] at h
    exact hne h

/-- C4 witness: depth-1 all-empty tree, slot 0, a nonzero leaf: insertion
changes the root, insertion followed by deletion restores it. -/
theorem insert_delete_root_witness :
    (rootOfDepth 1
        (deleteAt (insertAt (fun _ => zeroLeaf) 0 (List.replicate 32 3)) 0)
        0 = rootOfDepth 1 (fun _ => zeroLeaf) 0) ∧
    rootOfDepth 1 (insertAt (fun _ => zeroLeaf) 0 (List.replicate 32 3)) 0 ≠
      rootOfDepth 1 (fun _ => zeroLeaf) 0 := by
  have h := insert_delete_root 1 (fun _ => zeroLeaf) 0 (List.replicate 32 3)
    (by decide)
  exact ⟨h.1 rfl, h.2 (by decide)⟩

/-- C5: a 20-byte buffer whose 8-byte little-endian count declares
`elemCount = 4471937957262921604` makes the Go length check pass — the
expected length `8 + int(32*n) + 8 + int(n)` wraps around 64 bits to exactly
20 — after which the element copy (and the `make` allocation) panics instead
of returning a malformed-input error. -/
theorem merkleProof_deserialize_overflow_crash :
    MerkleProof.deserialize
        ([132, 15, 62, 248, 224, 131, 15, 62] ++ List.replicate 12 0) =
      GoResult.crash := by
  decide

/-- C6 witness: the roundtrip at a concrete two-element Merkle path. -/
theorem merkleProof_deserialize_serialize_witness :
    MerkleProof.deserialize
        (MerkleProof.serialize
          ⟨[List.replicate 32 1, List.replicate 32 2], [1, 0]⟩) =
      GoResult.ok ⟨[List.replicate 32 1, List.replicate 32 2], [1, 0]⟩ :=
  merkleProof_deserialize_serialize [List.replicate 32 1, List.replicate 32 2]
    [1, 0] (by decide) (by decide) (by decide)

/-- C7 counterexample: at concrete inputs with an empty signal the witness
serialization has 144 bytes, not `144 + 8 + len(signal) = 152`. -/
theorem serialize_length_cex :
    ¬ (serialize (List.replicate 32 0) 0 0 0 (List.replicate 32 0) []).length =
        144 + 8 + ([] : List Nat).length := by
  decide

/-- C7 (amended): the proof-generation witness serialization is exactly
`idSecretHash(32) | memberIndex(8 LE) | userMessageLimit(32, low 4 LE,
upper 28 zero) | messageId(same) | externalNullifier(32) | signalLen(8 LE) |
signal`, for a total of `144 + len(signal)` bytes (136 fixed bytes plus the
8-byte length prefix plus the signal). -/
theorem serialize_layout (idKey : List Nat)
    (memIndex userMessageLimit messageId : Nat) (en msg : List Nat)
    (hid : idKey.length = 32) (hen : en.length = 32) :
    (serialize idKey memIndex userMessageLimit messageId en msg).length =
        144 + msg.length ∧
    (serialize idKey memIndex userMessageLimit messageId en msg).take 32 =
        idKey ∧
    ((serialize idKey memIndex userMessageLimit messageId en msg).drop
        32).take 8 = leBytes 8 memIndex ∧
    ((serialize idKey memIndex userMessageLimit messageId en msg).drop
        40).take 32 = leBytes 4 userMessageLimit ++ List.replicate 28 0 ∧
    ((serialize idKey memIndex userMessageLimit messageId en msg).drop
        72).take 32 = leBytes 4 messageId ++ List.replicate 28 0 ∧
    ((serialize idKey memIndex userMessageLimit messageId en msg).drop
        104).take 32 = en ∧
    ((serialize idKey memIndex userMessageLimit messageId en msg).drop
        136).take 8 = leBytes 8 msg.length ∧
    (serialize idKey memIndex userMessageLimit messageId en msg).drop 144 =
        msg := by
  have l8i : (leBytes 8 memIndex).length = 8 := length_leBytes 8 memIndex
  have l32u : (leBytes 4 userMessageLimit ++ List.replicate 28 0).length =
      32 := by
    simp only [List.length_append, length_leBytes, List.length_replicate]
  have l32m : (leBytes 4 messageId ++ List.replicate 28 0).length = 32 := by
    simp only [List.length_append, length_leBytes, List.length_replicate]
  have l8s : (leBytes 8 msg.length).length = 8 := length_leBytes 8 msg.length
  have hs0 : serialize idKey memIndex userMessageLimit messageId en msg =
      idKey ++ (leBytes 8 memIndex ++
        ((leBytes 4 userMessageLimit ++ List.replicate 28 0) ++
          ((leBytes 4 messageId ++ List.replicate 28 0) ++
            (en ++ (leBytes 8 msg.length ++ msg))))) := by
    simp [serialize, appendLength, List.append_assoc]
  have hs40 : serialize idKey memIndex userMessageLimit messageId en msg =
      (idKey ++ leBytes 8 memIndex) ++
        ((leBytes 4 userMessageLimit ++ List.replicate 28 0) ++
          ((leBytes 4 messageId ++ List.replicate 28 0) ++
            (en ++ (leBytes 8 msg.length ++ msg)))) := by
    simp [serialize, appendLength, List.append_assoc]
  have hs72 : serialize idKey memIndex userMessageLimit messageId en msg =
      ((idKey ++ leBytes 8 memIndex) ++
          (leBytes 4 userMessageLimit ++ List.replicate 28 0)) ++
        ((leBytes 4 messageId ++ List.replicate 28 0) ++
          (en ++ (leBytes 8 msg.length ++ msg))) := by
    simp [serialize, appendLength, List.append_assoc]
  have hs104 : serialize idKey memIndex userMessageLimit messageId en msg =
      (((idKey ++ leBytes 8 memIndex) ++
            (leBytes 4 userMessageLimit ++ List.replicate 28 0)) ++
          (leBytes 4 messageId ++ List.replicate 28 0)) ++
        (en ++ (leBytes 8 msg.length ++ msg)) := by
    simp [serialize, appendLength, List.append_assoc]
  have hs136 : serialize idKey memIndex userMessageLimit messageId en msg =
      ((((idKey ++ leBytes 8 memIndex) ++
              (leBytes 4 userMessageLimit ++ List.replicate 28 0)) ++
            (leBytes 4 messageId ++ List.replicate 28 0)) ++ en) ++
        (leBytes 8 msg.length ++ msg) := by
    simp [serialize, appendLength, List.append_assoc]
  have hs144 : serialize idKey memIndex userMessageLimit messageId en msg =
      (((((idKey ++ leBytes 8 memIndex) ++
                (leBytes 4 userMessageLimit ++ List.replicate 28 0)) ++
              (leBytes 4 messageId ++ List.replicate 28 0)) ++ en) ++
          leBytes 8 msg.length) ++ msg := by
    simp [serialize, appendLength, List.append_assoc]
  refine ⟨?_, ?_, ?_, ?_, ?_, ?_, ?_, ?_⟩
  · rw [hs0]
    simp only [List.length_append, length_leBytes, List.length_replicate,
      hid, hen]
    omega
  · rw [hs0]
    exact take_append_of_length _ _ _ hid
  · rw [hs0, drop_append_of_length _ _ _ hid]
    exact take_append_of_length _ _ _ l8i
  · rw [hs40, drop_append_of_length _ _ _
      (by simp only [List.length_append, length_leBytes, List.length_replicate, hid, hen])]
    exact take_append_of_length _ _ _ l32u
  · rw [hs72, drop_append_of_length _ _ _
      (by simp only [List.length_append, length_leBytes, List.length_replicate, hid, hen])]
    exact take_append_of_length _ _ _ l32m
  · rw [hs104, drop_append_of_length _ _ _
      (by simp only [List.length_append, length_leBytes, List.length_replicate, hid, hen])]
    exact take_append_of_length _ _ _ hen
  · rw [hs136, drop_append_of_length _ _ _
      (by simp only [List.length_append, length_leBytes, List.length_replicate, hid, hen])]
    exact take_append_of_length _ _ _ l8s
  · rw [hs144]
    exact drop_append_of_length _ _ _
      (by simp only [List.length_append, length_leBytes, List.length_replicate, hid, hen])

/-- C7 witness: the amended layout at concrete inputs. -/
theorem serialize_layout_witness :
    (serialize (List.replicate 32 1) 2 3 4 (List.replicate 32 5)
        [6]).length = 144 + 1 ∧
    (serialize (List.replicate 32 1) 2 3 4 (List.replicate 32 5) [6]).drop
        144 = [6] := by
  have h := serialize_layout (List.replicate 32 1) 2 3 4 (List.replicate 32 5)
    [6] (by decide) (by decide)
  exact ⟨by simpa using h.1, h.2.2.2.2.2.2.2⟩

/-- C8: `Verify` hands the oracle verifier exactly the bytes
`proof | root | externalNullifier | shareX | shareY | nullifier |
signalLen(8 LE) | signal` as the serialized proof, and the plain concatenation
of the accepted roots (no count prefix; the empty root list yields the empty
byte string). -/
theorem verify_oracle_bytes
    (w : List Nat → List Nat → Except String Bool) (data : List Nat)
    (proof : RateLimitProof) (roots : List (List Nat)) :
    verify w data proof roots =
      w (proof.Proof ++ proof.MerkleRoot ++ proof.ExternalNullifier ++
          proof.ShareX ++ proof.ShareY ++ proof.Nullifier ++
          (leBytes 8 data.length ++ data)) roots.flatten ∧
    serialize32 ([] : List (List Nat)) = [] := by
  constructor
  · have hA : proof.serializeWithData data =
        proof.Proof ++ proof.MerkleRoot ++ proof.ExternalNullifier ++
          proof.ShareX ++ proof.ShareY ++ proof.Nullifier ++
          (leBytes 8 data.length ++ data) := by
      simp [RateLimitProof.serializeWithData, RateLimitProof.serialize,
        appendLength, List.append_assoc]
    have hR : serialize32 roots = roots.flatten := rfl
    unfold verify
    rw [hA, hR]
    cases w (proof.Proof ++ proof.MerkleRoot ++ proof.ExternalNullifier ++
        proof.ShareX ++ proof.ShareY ++ proof.Nullifier ++
        (leBytes 8 data.length ++ data)) roots.flatten <;> rfl
  · rfl

/-- C9: when the Poseidon step and the oracle prover call both succeed,
`GenerateProof` errors exactly when the prover output is not 288 bytes, and a
288-byte output is decoded into the byte ranges `[0,128)`, `[128,160)`,
`[160,192)`, `[192,224)`, `[224,256)`, `[256,288)`. -/
theorem generateProof_decode
    (ph prover : List Nat → Except String (List Nat)) (data : List Nat)
    (key : IdentityCredential) (index : Nat) (epoch : List Nat)
    (messageId : Nat) (en pb : List Nat)
    (hph : rPoseidon ph [epoch, RLN_IDENTIFIER] = .ok en)
    (hpr : prover (serialize key.IDSecretHash index key.UserMessageLimit
      messageId en data) = .ok pb) :
    ((∃ e, generateProof ph prover data key index epoch messageId =
        .error e) ↔ pb.length ≠ 288) ∧
    (pb.length = 288 →
      generateProof ph prover data key index epoch messageId =
        .ok ⟨pb.take 128, (pb.drop 128).take 32, (pb.drop 160).take 32,
          (pb.drop 192).take 32, (pb.drop 224).take 32,
          (pb.drop 256).take 32⟩) := by
  have hgen : generateProof ph prover data key index epoch messageId =
      decodeProofBytes (.ok pb) := by
    simp only [generateProof, decodeProofBytes, hph, hpr]
  constructor
  · constructor
    · rintro ⟨e, he⟩
      rw [hgen] at he
      by_cases h288 : pb.length = 288
      · simp [decodeProofBytes, h288] at he
      · exact h288
    · intro h288
      refine ⟨"invalid proof generated. size: " ++ toString pb.length ++
        " expected: 288", ?_⟩
      rw [hgen]
      simp [decodeProofBytes, h288]
  · intro h288
    rw [hgen]
    have e1 : pad 128 (pb.take 128) = pb.take 128 :=
      pad_eq_of_length _ _ (by simp [List.length_take, h288])
    have e2 : pad 32 ((pb.drop 128).take 32) = (pb.drop 128).take 32 :=
      pad_eq_of_length _ _ (by simp [List.length_take, List.length_drop, h288])
    have e3 : pad 32 ((pb.drop 160).take 32) = (pb.drop 160).take 32 :=
      pad_eq_of_length _ _ (by simp [List.length_take, List.length_drop, h288])
    have e4 : pad 32 ((pb.drop 192).take 32) = (pb.drop 192).take 32 :=
      pad_eq_of_length _ _ (by simp [List.length_take, List.length_drop, h288])
    have e5 : pad 32 ((pb.drop 224).take 32) = (pb.drop 224).take 32 :=
      pad_eq_of_length _ _ (by simp [List.length_take, List.length_drop, h288])
    have e6 : pad 32 ((pb.drop 256).take 32) = (pb.drop 256).take 32 :=
      pad_eq_of_length _ _ (by simp [List.length_take, List.length_drop, h288])
    simp [decodeProofBytes, h288, e1, e2, e3, e4, e5, e6]

/-- C9 witness: a concrete 288-byte prover output is decoded into its byte
ranges. -/
theorem generateProof_decode_witness :
    generateProof (fun _ => .ok (List.replicate 32 5))
        (fun _ => .ok (List.replicate 288 7)) []
        ⟨List.replicate 32 2, List.replicate 32 2, List.replicate 32 2,
          List.replicate 32 2, 10⟩ 0 (List.replicate 32 0) 3 =
      .ok ⟨(List.replicate 288 7).take 128,
        ((List.replicate 288 7).drop 128).take 32,
        ((List.replicate 288 7).drop 160).take 32,
        ((List.replicate 288 7).drop 192).take 32,
        ((List.replicate 288 7).drop 224).take 32,
        ((List.replicate 288 7).drop 256).take 32⟩ :=
  (generateProof_decode (fun _ => .ok (List.replicate 32 5))
    (fun _ => .ok (List.replicate 288 7)) []
    ⟨List.replicate 32 2, List.replicate 32 2, List.replicate 32 2,
      List.replicate 32 2, 10⟩ 0 (List.replicate 32 0) 3
    (List.replicate 32 5) (List.replicate 288 7) (by decide) (by decide)).2
    (by decide)

/-- C10: both key generators return an error whenever the oracle key material
is absent (`nil`) or not exactly 128 bytes; on a 128-byte output the returned
credential's fields are exactly its four consecutive 32-byte segments and the
user message limit is the single supplied parameter, or
`DEFAULT_USER_MESSAGE_LIMIT = 10` when none is supplied. -/
theorem membershipKeyGen_spec (gkOpt : Option (List Nat))
    (seedFn : List Nat → Option (List Nat)) (seed : List Nat)
    (params : List Nat) (hp : params.length ≤ 1) :
    (gkOpt = none →
      membershipKeyGen gkOpt params = .error "error in key generation") ∧
    (∀ gk, gkOpt = some gk → gk.length ≠ 128 →
      membershipKeyGen gkOpt params =
        .error "generated keys are of invalid length") ∧
    (∀ gk, gkOpt = some gk → gk.length = 128 →
      membershipKeyGen gkOpt params =
        .ok ⟨gk.take 32, (gk.drop 32).take 32, (gk.drop 64).take 32,
          (gk.drop 96).take 32,
          params.headD DEFAULT_USER_MESSAGE_LIMIT⟩) ∧
    (seedFn seed = none →
      seededMembershipKeyGen seedFn seed params =
        .error "error in key generation") ∧
    (∀ gk, seedFn seed = some gk → gk.length ≠ 128 →
      seededMembershipKeyGen seedFn seed params =
        .error "generated keys are of invalid length") ∧
    (∀ gk, seedFn seed = some gk → gk.length = 128 →
      seededMembershipKeyGen seedFn seed params =
        .ok ⟨gk.take 32, (gk.drop 32).take 32, (gk.drop 64).take 32,
          (gk.drop 96).take 32,
          params.headD DEFAULT_USER_MESSAGE_LIMIT⟩) := by
  have hseg : ∀ gk : List Nat, gk.length = 128 → ∀ lim : Nat,
      toIdentityCredential gk lim =
        .ok ⟨gk.take 32, (gk.drop 32).take 32, (gk.drop 64).take 32,
          (gk.drop 96).take 32, lim⟩ := by
    intro gk hg lim
    have p1 : pad 32 (gk.take 32) = gk.take 32 :=
      pad_eq_of_length _ _ (by simp [List.length_take, hg])
    have p2 : pad 32 ((gk.drop 32).take 32) = (gk.drop 32).take 32 :=
      pad_eq_of_length _ _ (by simp [List.length_take, List.length_drop, hg])
    have p3 : pad 32 ((gk.drop 64).take 32) = (gk.drop 64).take 32 :=
      pad_eq_of_length _ _ (by simp [List.length_take, List.length_drop, hg])
    have p4 : pad 32 ((gk.drop 96).take 32) = (gk.drop 96).take 32 :=
      pad_eq_of_length _ _ (by simp [List.length_take, List.length_drop, hg])
    simp [toIdentityCredential, hg, p1, p2, p3, p4]
  match params, hp with
  | [], _ =>
    refine ⟨?_, ?_, ?_, ?_, ?_, ?_⟩
    · intro h
      simp [membershipKeyGen, h]
    · intro gk hg hgl
      simp [membershipKeyGen, hg, toIdentityCredential, hgl]
    · intro gk hg hgl
      simp only [membershipKeyGen, hg, List.headD]
      exact hseg gk hgl DEFAULT_USER_MESSAGE_LIMIT
    · intro h
      simp [seededMembershipKeyGen, h]
    · intro gk hg hgl
      simp [seededMembershipKeyGen, hg, toIdentityCredential, hgl]
    · intro gk hg hgl
      simp only [seededMembershipKeyGen, hg, List.headD]
      exact hseg gk hgl DEFAULT_USER_MESSAGE_LIMIT
  | [u], _ =>
    refine ⟨?_, ?_, ?_, ?_, ?_, ?_⟩
    · intro h
      simp [membershipKeyGen, h]
    · intro gk hg hgl
      simp [membershipKeyGen, hg, toIdentityCredential, hgl]
    · intro gk hg hgl
      simp only [membershipKeyGen, hg, List.headD]
      exact hseg gk hgl u
    · intro h
      simp [seededMembershipKeyGen, h]
    · intro gk hg hgl
      simp [seededMembershipKeyGen, hg, toIdentityCredential, hgl]
    · intro gk hg hgl
      simp only [seededMembershipKeyGen, hg, List.headD]
      exact hseg gk hgl u

/-- C10 witness: a concrete 128-byte output with an explicit limit 7. -/
theorem membershipKeyGen_spec_witness :
    membershipKeyGen (some (List.replicate 128 3)) [7] =
      .ok ⟨List.replicate 32 3, List.replicate 32 3, List.replicate 32 3,
        List.replicate 32 3, 7⟩ := by
  have h := (membershipKeyGen_spec (some (List.replicate 128 3))
    (fun _ => none) [] [7] (by decide)).2.2.1 (List.replicate 128 3) rfl
    (by decide)
  exact h.trans (by decide)
